import Mathlib

/-!
Verification development for a small inverted-index search engine with BM25
ranking.  The Python source keeps four dictionaries (token postings, a
document catalog, per-document term-frequency counters, per-document token
lengths) plus an injected tokenizer, and exposes build / save / load /
frequency / idf / tf / search operations.

Modelling choices:
  * Python dictionaries become association lists with first-match lookup and
    replace-in-place-or-append assignment (`alookup` / `aset`), matching
    dict insertion-order semantics.
  * Python sets of document ids become `Finset Int`.
  * Python ints are `Int` (document ids, the search `limit`) or `Nat`
    (occurrence counts, lengths); floats are idealized as real numbers,
    `math.log` as `Real.log`.
  * Raised exceptions become `Except IndexError`.
  * The pickle files on disk become a `Store`: a map from a cache-directory
    name to the optional saved components.
-/

set_option maxHeartbeats 1000000

namespace RagIndex

/-- First-match lookup in an association list, as Python dict `get`. -/
def alookup {K V : Type} [DecidableEq K] : List (K × V) → K → Option V
  | [], _ => none
  | (a, v) :: rest, k => if a = k then some v else alookup rest k

/-- Dict assignment `m[k] = v`: replace the first binding of `k` in place, or
append a new binding at the end, as Python dicts do. -/
def aset {K V : Type} [DecidableEq K] : List (K × V) → K → V → List (K × V)
  | [], k, v => [(k, v)]
  | (a, w) :: rest, k, v =>
      if a = k then (k, v) :: rest else (a, w) :: aset rest k v

/-- A movie record (`Movie` TypedDict in the source). -/
structure Movie where
  id : Int
  title : String
  description : String
deriving DecidableEq

/-- Errors the index operations can raise: `ValueError` for malformed terms,
`FileNotFoundError` for a missing cache. -/
inductive IndexError where
  | invalidTerm (msg : String)
  | notFound (msg : String)
deriving DecidableEq

/-- The in-memory state of `InvertedIndex`: the four dictionaries plus the
injected tokenizer `_tokenize`. -/
structure InvertedIndex where
  tok : String → List String
  index : List (String × Finset Int)
  docmap : List (Int × Movie)
  term_frequencies : List (Int × List (String × Nat))
  doc_lengths : List (Int × Nat)

/-- `InvertedIndex.__init__`: all four structures empty. -/
def freshIndex (tokenizeFn : String → List String) : InvertedIndex :=
  { tok := tokenizeFn, index := [], docmap := [], term_frequencies := [],
    doc_lengths := [] }

/-- Value of a term-frequency counter at a token (`Counter.get(tok, 0)`). -/
def cval (c : List (String × Nat)) (t : String) : Nat :=
  (alookup c t).getD 0

/-- `counter[tok] += 1` on a Python `Counter`. -/
def cinc (c : List (String × Nat)) (t : String) : List (String × Nat) :=
  aset c t (cval c t + 1)

/-- The body of the token loop in `__add_document`: add `docId` to the
token's posting set and bump the document's counter for that token. -/
def addToken (docId : Int)
    (acc : List (String × Finset Int) × List (Int × List (String × Nat)))
    (t : String) :
    List (String × Finset Int) × List (Int × List (String × Nat)) :=
  let idx := aset acc.1 t (insert docId ((alookup acc.1 t).getD ∅))
  let c := (alookup acc.2 docId).getD []
  (idx, aset acc.2 docId (cinc c t))

/-- The `if doc_id not in self.X: self.X[doc_id] = default` pattern. -/
def ensureEntry {K V : Type} [DecidableEq K] (m : List (K × V)) (k : K)
    (v0 : V) : List (K × V) :=
  match alookup m k with
  | some _ => m
  | none => aset m k v0

/-- `InvertedIndex.__add_document`: tokenize the text, ensure a counter
entry, process each token, then add the token count to the document's
length entry. -/
def addDocument (st : InvertedIndex) (docId : Int) (text : String) :
    InvertedIndex :=
  let tokens := st.tok text
  let tf0 := ensureEntry st.term_frequencies docId []
  let p := tokens.foldl (addToken docId) (st.index, tf0)
  let dl0 := ensureEntry st.doc_lengths docId 0
  let dl1 := aset dl0 docId ((alookup dl0 docId).getD 0 + tokens.length)
  { st with index := p.1, term_frequencies := p.2, doc_lengths := dl1 }

/-- The text indexed for a movie: `f"{title} {description}"`. -/
def docText (m : Movie) : String :=
  m.title ++ " " ++ m.description

/-- One iteration of the loop in `build`: register the movie in the catalog,
then add its text to the index. -/
def buildStep (st : InvertedIndex) (m : Movie) : InvertedIndex :=
  addDocument { st with docmap := aset st.docmap m.id m } m.id (docText m)

/-- `InvertedIndex.build`. -/
def build (st : InvertedIndex) (movies : List Movie) : InvertedIndex :=
  movies.foldl buildStep st

/-- Index states reachable by a sequence of `build` calls on a fresh index. -/
inductive Reachable : InvertedIndex → Prop
  | fresh (tokenizeFn : String → List String) : Reachable (freshIndex tokenizeFn)
  | step (st : InvertedIndex) (movies : List Movie) :
      Reachable st → Reachable (build st movies)

/-- What `save` persists at one cache directory: the four pickle files,
each possibly absent. -/
structure SavedState where
  index : Option (List (String × Finset Int))
  docmap : Option (List (Int × Movie))
  term_frequencies : Option (List (Int × List (String × Nat)))
  doc_lengths : Option (List (Int × Nat))

/-- Durable storage: the saved components at each cache-directory name. -/
def Store : Type := String → SavedState

/-- Storage with nothing ever saved. -/
def emptyStore : Store := fun _ => ⟨none, none, none, none⟩

/-- `InvertedIndex.save`: write all four structures at `cacheDir`. -/
def save (st : InvertedIndex) (store : Store) (cacheDir : String) : Store :=
  fun loc =>
    if loc = cacheDir then
      ⟨some st.index, some st.docmap, some st.term_frequencies,
        some st.doc_lengths⟩
    else store loc

/-- `InvertedIndex.load`: fail with `FileNotFoundError` unless all four
components are present, then replace the four in-memory structures. -/
def load (st : InvertedIndex) (store : Store) (cacheDir : String) :
    Except IndexError InvertedIndex :=
  match (store cacheDir).index, (store cacheDir).docmap,
      (store cacheDir).term_frequencies, (store cacheDir).doc_lengths with
  | some i, some d, some tf, some dl =>
      .ok { st with
              index := i
              docmap := d
              term_frequencies := tf
              doc_lengths := dl }
  | _, _, _, _ => .error (.notFound "Cache not found. Run build first.")

/-- `InvertedIndex.get_frequency`. -/
def get_frequency (st : InvertedIndex) (docId : Int) (term : String) :
    Except IndexError Nat :=
  match st.tok term with
  | [t] =>
      match alookup st.term_frequencies docId with
      | none => .ok 0
      | some c => if c = [] then .ok 0 else .ok (cval c t)
  | _ => .error (.invalidTerm "The term must tokenize to exactly one token.")

/-- The posting set of a token, `self.index.get(token, set())`. -/
def postings (st : InvertedIndex) (t : String) : Finset Int :=
  (alookup st.index t).getD ∅

/-- The BM25 IDF value of a single token, as computed in `get_bm25_idf`. -/
noncomputable def idfValue (st : InvertedIndex) (t : String) : ℝ :=
  let n := st.docmap.length
  let df := (postings st t).card
  if n = 0 then 0
  else Real.log (((n : ℝ) - (df : ℝ) + 0.5) / ((df : ℝ) + 0.5) + 1)

/-- `InvertedIndex.get_bm25_idf`. -/
noncomputable def get_bm25_idf (st : InvertedIndex) (term : String) :
    Except IndexError ℝ :=
  match st.tok term with
  | [t] => .ok (idfValue st t)
  | _ => .error (.invalidTerm "The term must tokenize to exactly one token.")

/-- `InvertedIndex.__get_avg_doc_length`: arithmetic mean of the length
table, 0.0 when it is empty. -/
noncomputable def get_avg_doc_length (st : InvertedIndex) : ℝ :=
  if st.doc_lengths = [] then 0
  else ((st.doc_lengths.map Prod.snd).sum : ℝ) / (st.doc_lengths.length : ℝ)

/-- A document's length-table entry, `self.doc_lengths.get(doc_id, 0)`. -/
def dlVal (st : InvertedIndex) (docId : Int) : Nat :=
  (alookup st.doc_lengths docId).getD 0

/-- `InvertedIndex.get_bm25_tf`. -/
noncomputable def get_bm25_tf (st : InvertedIndex) (docId : Int)
    (term : String) (k1 b : ℝ) : Except IndexError ℝ :=
  match get_frequency st docId term with
  | .error (.invalidTerm msg) =>
      .error (.invalidTerm ("Error: " ++ msg ++ " Invalid term, this must be exactly one token."))
  | .error e => .error e
  | .ok tf =>
      let avgLen := get_avg_doc_length st
      let docLen := dlVal st docId
      if docLen = 0 ∨ avgLen = 0 then .ok 0
      else
        .ok (((tf : ℝ) * (k1 + 1)) /
          ((tf : ℝ) + k1 * (1 - b + b * ((docLen : ℝ) / avgLen))))

/-- `InvertedIndex.bm25`: IDF times the TF component. -/
noncomputable def bm25 (st : InvertedIndex) (docId : Int) (term : String)
    (k1 b : ℝ) : Except IndexError ℝ := do
  let idf ← get_bm25_idf st term
  let tf ← get_bm25_tf st docId term k1 b
  pure (idf * tf)

/-- The aggregate score loop of `bm25_search`: sum `bm25` over all query
tokens for one candidate document. -/
noncomputable def scoreSum (st : InvertedIndex) (docId : Int)
    (tokens : List String) (k1 b : ℝ) : Except IndexError ℝ :=
  tokens.foldlM (fun total t => do
    let s ← bm25 st docId t k1 b
    pure (total + s)) 0

/-- The candidate set of `bm25_search`: union of the posting sets of the
query tokens. -/
def candidateSet (st : InvertedIndex) (tokens : List String) : Finset Int :=
  tokens.foldl (fun acc t => acc ∪ postings st t) ∅

/-- Python list slicing `l[:n]`, including the negative-stop case. -/
def pyTake {α : Type} (n : Int) (l : List α) : List α :=
  if 0 ≤ n then l.take n.toNat else l.take (l.length - (-n).toNat)

/-- Default BM25 parameters from the source. -/
def BM25_K1 : ℝ := 1.5

/-- Default BM25 length-normalization parameter from the source. -/
def BM25_B : ℝ := 0.75

/-- The body of the candidate loop in `bm25_search`: compute the aggregate
score of one candidate and append it to the kept list when it is strictly
positive. -/
noncomputable def scoreStep (st : InvertedIndex) (tokens : List String)
    (k1 b : ℝ) (acc : List (Int × ℝ)) (docId : Int) :
    Except IndexError (List (Int × ℝ)) := do
  let total ← scoreSum st docId tokens k1 b
  pure (if 0 < total then acc ++ [(docId, total)] else acc)

/-- The comparison used to rank results: by score, descending
(`sorted(..., key=lambda kv: kv[1], reverse=True)`). -/
noncomputable def rankLE (p q : Int × ℝ) : Bool := decide (q.2 ≤ p.2)

/-- `InvertedIndex.bm25_search`.  The Python loop iterates the candidate set
in unspecified set order; the model enumerates candidates in ascending
order, which is one admissible order (every property proved below is
independent of the enumeration order). -/
noncomputable def bm25_search (st : InvertedIndex) (query : String)
    (k1 b : ℝ) (limit : Int) : Except IndexError (List (Int × ℝ)) := do
  let tokens := st.tok query
  if tokens = [] then pure [] else
  let candidates := candidateSet st tokens
  if candidates = ∅ then pure [] else do
  let scores ← (candidates.sort (fun a b => a ≤ b)).foldlM
      (scoreStep st tokens k1 b) []
  pure (pyTake limit (scores.mergeSort rankLE))

/-- Sum of the values of a term-frequency counter
(`sum(counter.values())`). -/
def csum (c : List (String × Nat)) : Nat := (c.map Prod.snd).sum

/-- The stored occurrence count of token `t` in document `d` (0 when the
document has no counter or the token is absent from it). -/
def tfcount (st : InvertedIndex) (d : Int) (t : String) : Nat :=
  cval ((alookup st.term_frequencies d).getD []) t

/-- The last movie in `ms` carrying id `x`: the catalog record that a
`build` over `ms` leaves for `x`. -/
def lastRecord (ms : List Movie) (x : Int) : Option Movie :=
  ms.reverse.find? (fun m => decide (m.id = x))

/-- Total number of tokens the input list `ms` contributes to document `x`
under tokenizer `tokenizeFn`. -/
def contribLen (tokenizeFn : String → List String) (ms : List Movie)
    (x : Int) : Nat :=
  ((ms.filter (fun m => decide (m.id = x))).map
    (fun m => (tokenizeFn (docText m)).length)).sum

/-- Number of occurrences of token `t` the input list `ms` contributes to
document `x` under tokenizer `tokenizeFn`. -/
def contribCnt (tokenizeFn : String → List String) (ms : List Movie)
    (x : Int) (t : String) : Nat :=
  ((ms.filter (fun m => decide (m.id = x))).map
    (fun m => (tokenizeFn (docText m)).count t)).sum

/-- Fixture tokenizer: the whole text is a single token. -/
def onetok : String → List String := fun s => [s]

/-- Fixture tokenizer: every text yields two tokens. -/
def twotok : String → List String := fun s => [s, s]

/-- Fixture movie. -/
def mW : Movie := ⟨1, "a", "b"⟩

/-- Fixture index: one movie indexed with the single-token tokenizer. -/
def stW : InvertedIndex := build (freshIndex onetok) [mW]

/-- Fixture tokenizer giving two terms with different document
frequencies. -/
def pairtok : String → List String := fun s =>
  if s = "a " then ["a", "b"] else if s = "b " then ["b"] else [s]

/-- Fixture index: token "a" occurs in one document, token "b" in two. -/
def stPair : InvertedIndex :=
  build (freshIndex pairtok) [⟨1, "a", ""⟩, ⟨2, "b", ""⟩]

/-! Association-list lemmas. -/

theorem alookup_aset_self {K V : Type} [DecidableEq K] (m : List (K × V))
    (k : K) (v : V) : alookup (aset m k v) k = some v := by
  induction m with
  | nil => simp [aset, alookup]
  | cons hd rest ih =>
      obtain ⟨a, w⟩ := hd
      by_cases h : a = k
      · subst h; simp [aset, alookup]
      · simp [aset, alookup, h, ih]

theorem alookup_aset_ne {K V : Type} [DecidableEq K] (m : List (K × V))
    (k k' : K) (v : V) (h : k' ≠ k) :
    alookup (aset m k v) k' = alookup m k' := by
  induction m with
  | nil => simp [aset, alookup, Ne.symm h]
  | cons hd rest ih =>
      obtain ⟨a, w⟩ := hd
      by_cases ha : a = k
      · subst ha; simp [aset, alookup, Ne.symm h]
      · simp [aset, alookup, ha, ih]

theorem alookup_isSome_iff_mem {K V : Type} [DecidableEq K]
    (m : List (K × V)) (k : K) :
    (alookup m k).isSome ↔ k ∈ m.map Prod.fst := by
  induction m with
  | nil => simp [alookup]
  | cons hd rest ih =>
      obtain ⟨a, w⟩ := hd
      by_cases h : a = k
      · subst h; simp [alookup]
      · simp [alookup, h, ih, Ne.symm h]

theorem alookup_ensure_ne {K V : Type} [DecidableEq K] (m : List (K × V))
    (k k' : K) (v0 : V) (h : k' ≠ k) :
    alookup (ensureEntry m k v0) k' = alookup m k' := by
  unfold ensureEntry
  cases halt : alookup m k with
  | some w => rfl
  | none => exact alookup_aset_ne m k k' v0 h

theorem alookup_ensure_self {K V : Type} [DecidableEq K] (m : List (K × V))
    (k : K) (v0 : V) :
    alookup (ensureEntry m k v0) k = some ((alookup m k).getD v0) := by
  unfold ensureEntry
  cases halt : alookup m k with
  | some w => simp [halt]
  | none => simp [alookup_aset_self]

/-! Counter lemmas. -/

theorem cval_cinc_self (c : List (String × Nat)) (t : String) :
    cval (cinc c t) t = cval c t + 1 := by
  simp [cinc, cval, alookup_aset_self]

theorem cval_cinc_ne (c : List (String × Nat)) (t t' : String) (h : t' ≠ t) :
    cval (cinc c t) t' = cval c t' := by
  simp [cinc, cval, alookup_aset_ne _ _ _ _ h]

theorem csum_cinc (c : List (String × Nat)) (t : String) :
    csum (cinc c t) = csum c + 1 := by
  induction c with
  | nil => simp [cinc, cval, csum, aset, alookup]
  | cons hd rest ih =>
      obtain ⟨a, w⟩ := hd
      by_cases h : a = t
      · subst h
        simp [cinc, cval, csum, aset, alookup]
        omega
      · have hstep : cinc ((a, w) :: rest) t = (a, w) :: cinc rest t := by
          simp [cinc, cval, aset, alookup, h]
        rw [hstep]
        simp only [csum, List.map_cons, List.sum_cons] at ih ⊢
        omega

/-! Lemmas about the token loop of `__add_document`. -/

theorem addToken_eq (d : Int) (i : List (String × Finset Int))
    (m : List (Int × List (String × Nat))) (t : String) :
    addToken d (i, m) t =
      (aset i t (insert d ((alookup i t).getD ∅)),
        aset m d (cinc ((alookup m d).getD []) t)) := rfl

theorem tffold_lookup_ne (d x : Int) (hx : x ≠ d) (tokens : List String)
    (i : List (String × Finset Int))
    (m : List (Int × List (String × Nat))) :
    alookup (tokens.foldl (addToken d) (i, m)).2 x = alookup m x := by
  induction tokens generalizing i m with
  | nil => rfl
  | cons t ts ih =>
      rw [List.foldl_cons, addToken_eq, ih]
      exact alookup_aset_ne _ _ _ _ hx

theorem tffold_csum (d : Int) (tokens : List String)
    (i : List (String × Finset Int))
    (m : List (Int × List (String × Nat))) :
    csum ((alookup (tokens.foldl (addToken d) (i, m)).2 d).getD []) =
      csum ((alookup m d).getD []) + tokens.length := by
  induction tokens generalizing i m with
  | nil => rfl
  | cons t ts ih =>
      rw [List.foldl_cons, addToken_eq, ih, alookup_aset_self]
      simp [csum_cinc]
      omega

theorem tffold_cval (d : Int) (t' : String) (tokens : List String)
    (i : List (String × Finset Int))
    (m : List (Int × List (String × Nat))) :
    cval ((alookup (tokens.foldl (addToken d) (i, m)).2 d).getD []) t' =
      cval ((alookup m d).getD []) t' + tokens.count t' := by
  induction tokens generalizing i m with
  | nil => simp [List.count_nil]
  | cons t ts ih =>
      rw [List.foldl_cons, addToken_eq, ih, alookup_aset_self]
      simp only [Option.getD_some, List.count_cons]
      by_cases h : t' = t
      · subst h
        simp [cval_cinc_self]
        omega
      · simp [cval_cinc_ne _ _ _ h, beq_iff_eq, Ne.symm h]

theorem tffold_isSome (d : Int) (tokens : List String)
    (i : List (String × Finset Int))
    (m : List (Int × List (String × Nat)))
    (h : (alookup m d).isSome) :
    (alookup (tokens.foldl (addToken d) (i, m)).2 d).isSome := by
  induction tokens generalizing i m with
  | nil => exact h
  | cons t ts ih =>
      rw [List.foldl_cons, addToken_eq]
      exact ih _ _ (by simp [alookup_aset_self])

theorem idxfold_mem (d : Int) (tokens : List String)
    (i : List (String × Finset Int))
    (m : List (Int × List (String × Nat))) (t' : String) (x : Int) :
    x ∈ ((alookup (tokens.foldl (addToken d) (i, m)).1 t').getD ∅) ↔
      x ∈ ((alookup i t').getD ∅) ∨ (x = d ∧ t' ∈ tokens) := by
  induction tokens generalizing i m with
  | nil => simp
  | cons t ts ih =>
      rw [List.foldl_cons, addToken_eq, ih]
      by_cases h : t' = t
      · subst h
        rw [alookup_aset_self]
        simp only [Option.getD_some, Finset.mem_insert, List.mem_cons]
        tauto
      · rw [alookup_aset_ne _ _ _ _ h]
        simp only [List.mem_cons]
        tauto

/-! Lemmas about `__add_document`. -/

theorem addDocument_tok (st : InvertedIndex) (d : Int) (text : String) :
    (addDocument st d text).tok = st.tok := rfl

theorem addDocument_docmap (st : InvertedIndex) (d : Int) (text : String) :
    (addDocument st d text).docmap = st.docmap := rfl

theorem addDocument_index (st : InvertedIndex) (d : Int) (text : String) :
    (addDocument st d text).index =
      ((st.tok text).foldl (addToken d)
        (st.index, ensureEntry st.term_frequencies d [])).1 := rfl

theorem addDocument_tf (st : InvertedIndex) (d : Int) (text : String) :
    (addDocument st d text).term_frequencies =
      ((st.tok text).foldl (addToken d)
        (st.index, ensureEntry st.term_frequencies d [])).2 := rfl

theorem addDocument_dl (st : InvertedIndex) (d : Int) (text : String) :
    (addDocument st d text).doc_lengths =
      aset (ensureEntry st.doc_lengths d 0) d
        ((alookup (ensureEntry st.doc_lengths d 0) d).getD 0 +
          (st.tok text).length) := rfl

theorem addDocument_dl_ne (st : InvertedIndex) (d : Int) (text : String)
    (x : Int) (hx : x ≠ d) :
    alookup (addDocument st d text).doc_lengths x =
      alookup st.doc_lengths x := by
  rw [addDocument_dl, alookup_aset_ne _ _ _ _ hx, alookup_ensure_ne _ _ _ _ hx]

theorem addDocument_dl_self (st : InvertedIndex) (d : Int) (text : String) :
    alookup (addDocument st d text).doc_lengths d =
      some (dlVal st d + (st.tok text).length) := by
  rw [addDocument_dl, alookup_aset_self, alookup_ensure_self]
  simp [dlVal]

theorem addDocument_tf_ne (st : InvertedIndex) (d : Int) (text : String)
    (x : Int) (hx : x ≠ d) :
    alookup (addDocument st d text).term_frequencies x =
      alookup st.term_frequencies x := by
  rw [addDocument_tf, tffold_lookup_ne _ _ hx, alookup_ensure_ne _ _ _ _ hx]

theorem addDocument_tf_csum (st : InvertedIndex) (d : Int) (text : String) :
    csum ((alookup (addDocument st d text).term_frequencies d).getD []) =
      csum ((alookup st.term_frequencies d).getD []) +
        (st.tok text).length := by
  rw [addDocument_tf, tffold_csum, alookup_ensure_self]
  cases h : alookup st.term_frequencies d <;> simp [h, csum]

theorem addDocument_tf_cval (st : InvertedIndex) (d : Int) (text : String)
    (t : String) :
    cval ((alookup (addDocument st d text).term_frequencies d).getD []) t =
      tfcount st d t + (st.tok text).count t := by
  rw [addDocument_tf, tffold_cval, alookup_ensure_self]
  cases h : alookup st.term_frequencies d <;> simp [h, tfcount, cval, alookup]

theorem addDocument_tf_isSome (st : InvertedIndex) (d : Int) (text : String)
    (x : Int) :
    (alookup (addDocument st d text).term_frequencies x).isSome ↔
      (alookup st.term_frequencies x).isSome ∨ x = d := by
  by_cases hx : x = d
  · subst hx
    simp only [eq_self_iff_true, or_true, iff_true]
    rw [addDocument_tf]
    exact tffold_isSome _ _ _ _ (by simp [alookup_ensure_self])
  · rw [addDocument_tf_ne _ _ _ _ hx]
    simp [hx]

theorem addDocument_dl_isSome (st : InvertedIndex) (d : Int) (text : String)
    (x : Int) :
    (alookup (addDocument st d text).doc_lengths x).isSome ↔
      (alookup st.doc_lengths x).isSome ∨ x = d := by
  by_cases hx : x = d
  · subst hx
    simp [addDocument_dl_self]
  · rw [addDocument_dl_ne _ _ _ _ hx]
    simp [hx]

theorem addDocument_postings (st : InvertedIndex) (d : Int) (text : String)
    (t : String) (x : Int) :
    x ∈ postings (addDocument st d text) t ↔
      x ∈ postings st t ∨ (x = d ∧ t ∈ st.tok text) := by
  unfold postings
  rw [addDocument_index]
  exact idxfold_mem _ _ _ _ _ _

/-! Lemmas about one `build` iteration. -/

theorem buildStep_tok (st : InvertedIndex) (m : Movie) :
    (buildStep st m).tok = st.tok := rfl

theorem buildStep_docmap (st : InvertedIndex) (m : Movie) :
    (buildStep st m).docmap = aset st.docmap m.id m := rfl

theorem buildStep_dl_ne (st : InvertedIndex) (m : Movie) (x : Int)
    (hx : x ≠ m.id) :
    alookup (buildStep st m).doc_lengths x = alookup st.doc_lengths x :=
  addDocument_dl_ne _ _ _ _ hx

theorem buildStep_dl_self (st : InvertedIndex) (m : Movie) :
    alookup (buildStep st m).doc_lengths m.id =
      some (dlVal st m.id + (st.tok (docText m)).length) :=
  addDocument_dl_self _ _ _

theorem buildStep_tf_ne (st : InvertedIndex) (m : Movie) (x : Int)
    (hx : x ≠ m.id) :
    alookup (buildStep st m).term_frequencies x =
      alookup st.term_frequencies x :=
  addDocument_tf_ne _ _ _ _ hx

theorem buildStep_tf_csum (st : InvertedIndex) (m : Movie) :
    csum ((alookup (buildStep st m).term_frequencies m.id).getD []) =
      csum ((alookup st.term_frequencies m.id).getD []) +
        (st.tok (docText m)).length :=
  addDocument_tf_csum _ _ _

theorem buildStep_tf_cval (st : InvertedIndex) (m : Movie) (t : String) :
    tfcount (buildStep st m) m.id t =
      tfcount st m.id t + (st.tok (docText m)).count t :=
  addDocument_tf_cval _ _ _ _

theorem buildStep_tfcount_ne (st : InvertedIndex) (m : Movie) (x : Int)
    (t : String) (hx : x ≠ m.id) :
    tfcount (buildStep st m) x t = tfcount st x t := by
  unfold tfcount
  rw [buildStep_tf_ne _ _ _ hx]

theorem buildStep_tf_isSome (st : InvertedIndex) (m : Movie) (x : Int) :
    (alookup (buildStep st m).term_frequencies x).isSome ↔
      (alookup st.term_frequencies x).isSome ∨ x = m.id :=
  addDocument_tf_isSome _ _ _ _

theorem buildStep_dl_isSome (st : InvertedIndex) (m : Movie) (x : Int) :
    (alookup (buildStep st m).doc_lengths x).isSome ↔
      (alookup st.doc_lengths x).isSome ∨ x = m.id :=
  addDocument_dl_isSome _ _ _ _

theorem buildStep_postings (st : InvertedIndex) (m : Movie) (t : String)
    (x : Int) :
    x ∈ postings (buildStep st m) t ↔
      x ∈ postings st t ∨ (x = m.id ∧ t ∈ st.tok (docText m)) :=
  addDocument_postings _ _ _ _ _

/-! Characterization of `build` by induction over the input list. -/

theorem build_tok (st : InvertedIndex) (ms : List Movie) :
    (build st ms).tok = st.tok := by
  induction ms generalizing st with
  | nil => rfl
  | cons m ms ih => rw [build, List.foldl_cons, ← build, ih, buildStep_tok]

theorem lastRecord_cons (m : Movie) (ms : List Movie) (x : Int) :
    lastRecord (m :: ms) x =
      (lastRecord ms x).or (if m.id = x then some m else none) := by
  unfold lastRecord
  rw [List.reverse_cons, List.find?_append]
  by_cases h : m.id = x
  · simp [List.find?, h]
  · simp [List.find?, h]

theorem build_docmap_lookup (st : InvertedIndex) (ms : List Movie) (x : Int) :
    alookup (build st ms).docmap x =
      (lastRecord ms x).or (alookup st.docmap x) := by
  induction ms generalizing st with
  | nil => simp [build, lastRecord]
  | cons m ms ih =>
      rw [build, List.foldl_cons, ← build, ih, buildStep_docmap,
        lastRecord_cons, Option.or_assoc]
      cases h : lastRecord ms x with
      | some r => rfl
      | none =>
          simp only [Option.none_or]
          by_cases hm : m.id = x
          · subst hm
            rw [alookup_aset_self]
            simp
          · rw [alookup_aset_ne _ _ _ _ (Ne.symm hm)]
            simp [hm]

theorem build_dl_val (st : InvertedIndex) (ms : List Movie) (x : Int) :
    dlVal (build st ms) x = dlVal st x + contribLen st.tok ms x := by
  induction ms generalizing st with
  | nil => simp [build, contribLen]
  | cons m ms ih =>
      rw [build, List.foldl_cons, ← build, ih, buildStep_tok]
      by_cases hm : m.id = x
      · subst hm
        have h1 : dlVal (buildStep st m) m.id =
            dlVal st m.id + (st.tok (docText m)).length := by
          simp [dlVal, buildStep_dl_self]
        rw [h1]
        simp [contribLen]
        omega
      · have h1 : dlVal (buildStep st m) x = dlVal st x := by
          simp [dlVal, buildStep_dl_ne _ _ _ (Ne.symm hm)]
        rw [h1]
        simp [contribLen, hm]

theorem build_tf_csum (st : InvertedIndex) (ms : List Movie) (x : Int) :
    csum ((alookup (build st ms).term_frequencies x).getD []) =
      csum ((alookup st.term_frequencies x).getD []) +
        contribLen st.tok ms x := by
  induction ms generalizing st with
  | nil => simp [build, contribLen]
  | cons m ms ih =>
      rw [build, List.foldl_cons, ← build, ih, buildStep_tok]
      by_cases hm : m.id = x
      · subst hm
        rw [buildStep_tf_csum]
        simp [contribLen]
        omega
      · rw [buildStep_tf_ne _ _ _ (Ne.symm hm)]
        simp [contribLen, hm]

theorem build_tf_cval (st : InvertedIndex) (ms : List Movie) (x : Int)
    (t : String) :
    tfcount (build st ms) x t = tfcount st x t + contribCnt st.tok ms x t := by
  induction ms generalizing st with
  | nil => simp [build, contribCnt]
  | cons m ms ih =>
      rw [build, List.foldl_cons, ← build, ih, buildStep_tok]
      by_cases hm : m.id = x
      · subst hm
        rw [buildStep_tf_cval]
        simp [contribCnt]
        omega
      · rw [buildStep_tfcount_ne _ _ _ _ (Ne.symm hm)]
        simp [contribCnt, hm]

theorem build_dl_ne (st : InvertedIndex) (ms : List Movie) (x : Int)
    (hx : x ∉ ms.map Movie.id) :
    alookup (build st ms).doc_lengths x = alookup st.doc_lengths x := by
  induction ms generalizing st with
  | nil => rfl
  | cons m ms ih =>
      simp only [List.map_cons, List.mem_cons] at hx
      push_neg at hx
      rw [build, List.foldl_cons, ← build, ih _ hx.2,
        buildStep_dl_ne _ _ _ hx.1]

theorem build_tf_ne (st : InvertedIndex) (ms : List Movie) (x : Int)
    (hx : x ∉ ms.map Movie.id) :
    alookup (build st ms).term_frequencies x =
      alookup st.term_frequencies x := by
  induction ms generalizing st with
  | nil => rfl
  | cons m ms ih =>
      simp only [List.map_cons, List.mem_cons] at hx
      push_neg at hx
      rw [build, List.foldl_cons, ← build, ih _ hx.2,
        buildStep_tf_ne _ _ _ hx.1]

theorem build_postings (st : InvertedIndex) (ms : List Movie) (t : String)
    (x : Int) :
    x ∈ postings (build st ms) t ↔
      x ∈ postings st t ∨
        ∃ m, m ∈ ms ∧ m.id = x ∧ t ∈ st.tok (docText m) := by
  induction ms generalizing st with
  | nil => simp [build]
  | cons m ms ih =>
      rw [build, List.foldl_cons, ← build, ih, buildStep_tok,
        buildStep_postings]
      simp only [List.mem_cons]
      constructor
      · rintro ((h | ⟨rfl, ht⟩) | ⟨m2, hm2, rfl, ht⟩)
        · exact Or.inl h
        · exact Or.inr ⟨m, Or.inl rfl, rfl, ht⟩
        · exact Or.inr ⟨m2, Or.inr hm2, rfl, ht⟩
      · rintro (h | ⟨m2, rfl | hm2, rfl, ht⟩)
        · exact Or.inl (Or.inl h)
        · exact Or.inl (Or.inr ⟨rfl, ht⟩)
        · exact Or.inr ⟨m2, hm2, rfl, ht⟩

theorem build_tf_isSome (st : InvertedIndex) (ms : List Movie) (x : Int) :
    (alookup (build st ms).term_frequencies x).isSome ↔
      (alookup st.term_frequencies x).isSome ∨ x ∈ ms.map Movie.id := by
  induction ms generalizing st with
  | nil => simp [build]
  | cons m ms ih =>
      rw [build, List.foldl_cons, ← build, ih, buildStep_tf_isSome]
      simp only [List.map_cons, List.mem_cons]
      tauto

theorem build_dl_isSome (st : InvertedIndex) (ms : List Movie) (x : Int) :
    (alookup (build st ms).doc_lengths x).isSome ↔
      (alookup st.doc_lengths x).isSome ∨ x ∈ ms.map Movie.id := by
  induction ms generalizing st with
  | nil => simp [build]
  | cons m ms ih =>
      rw [build, List.foldl_cons, ← build, ih, buildStep_dl_isSome]
      simp only [List.map_cons, List.mem_cons]
      tauto

theorem lastRecord_isSome (ms : List Movie) (x : Int) :
    (lastRecord ms x).isSome ↔ x ∈ ms.map Movie.id := by
  unfold lastRecord
  simp only [List.find?_isSome, List.mem_reverse, decide_eq_true_iff,
    List.mem_map]

theorem build_docmap_isSome (st : InvertedIndex) (ms : List Movie) (x : Int) :
    (alookup (build st ms).docmap x).isSome ↔
      (alookup st.docmap x).isSome ∨ x ∈ ms.map Movie.id := by
  rw [build_docmap_lookup, ← lastRecord_isSome]
  cases h : lastRecord ms x with
  | some r => simp [h]
  | none => simp [h]

/-! The invariant that every `build`-reachable state satisfies. -/

theorem reachable_inv (st : InvertedIndex) (h : Reachable st) :
    (∀ d, csum ((alookup st.term_frequencies d).getD []) = dlVal st d) ∧
    (∀ t x, x ∈ postings st t → (alookup st.docmap x).isSome) ∧
    (∀ x, (alookup st.term_frequencies x).isSome →
      (alookup st.docmap x).isSome) ∧
    (∀ x, (alookup st.doc_lengths x).isSome →
      (alookup st.docmap x).isSome) := by
  induction h with
  | fresh tokenizeFn =>
      refine ⟨fun d => rfl, fun t x hx => ?_, fun x hx => ?_, fun x hx => ?_⟩
      · simp [postings, freshIndex, alookup] at hx
      · simp [freshIndex, alookup] at hx
      · simp [freshIndex, alookup] at hx
  | step st ms hst ih =>
      obtain ⟨ih1, ih2, ih3, ih4⟩ := ih
      refine ⟨fun d => ?_, fun t x hx => ?_, fun x hx => ?_, fun x hx => ?_⟩
      · rw [build_tf_csum, build_dl_val, ih1]
      · rw [build_postings] at hx
        rw [build_docmap_isSome]
        rcases hx with hx | ⟨m, hm, hid, _⟩
        · exact Or.inl (ih2 t x hx)
        · exact Or.inr (by simp only [List.mem_map]; exact ⟨m, hm, hid⟩)
      · rw [build_tf_isSome] at hx
        rw [build_docmap_isSome]
        rcases hx with hx | hx
        · exact Or.inl (ih3 x hx)
        · exact Or.inr hx
      · rw [build_dl_isSome] at hx
        rw [build_docmap_isSome]
        rcases hx with hx | hx
        · exact Or.inl (ih4 x hx)
        · exact Or.inr hx

theorem postings_card_le (st : InvertedIndex) (t : String)
    (h : ∀ x, x ∈ postings st t → (alookup st.docmap x).isSome) :
    (postings st t).card ≤ st.docmap.length := by
  have hsub : postings st t ⊆ (st.docmap.map Prod.fst).toFinset := by
    intro x hx
    rw [List.mem_toFinset]
    exact (alookup_isSome_iff_mem _ _).1 (h x hx)
  calc (postings st t).card ≤ (st.docmap.map Prod.fst).toFinset.card :=
        Finset.card_le_card hsub
    _ ≤ (st.docmap.map Prod.fst).length := List.toFinset_card_le _
    _ = st.docmap.length := List.length_map _ _

/-! Real-valued lemmas about the BM25 IDF. -/

theorem idf_arg_eq (n df : ℕ) :
    ((n : ℝ) - (df : ℝ) + 0.5) / ((df : ℝ) + 0.5) + 1 =
      ((n : ℝ) + 1) / ((df : ℝ) + 0.5) := by
  have h : ((df : ℝ) + 0.5) ≠ 0 := by positivity
  field_simp
  ring

theorem idfValue_nonneg (st : InvertedIndex) (t : String)
    (hdf : (postings st t).card ≤ st.docmap.length) :
    0 ≤ idfValue st t := by
  unfold idfValue
  by_cases h : st.docmap.length = 0
  · simp [h]
  · simp only [h, if_false]
    apply Real.log_nonneg
    have hc : ((postings st t).card : ℝ) ≤ (st.docmap.length : ℝ) :=
      Nat.cast_le.2 hdf
    have hnum : (0 : ℝ) ≤
        ((st.docmap.length : ℝ) - ((postings st t).card : ℝ) + 0.5) /
          (((postings st t).card : ℝ) + 0.5) := by
      apply div_nonneg
      · linarith
      · positivity
    linarith

theorem idfValue_antitone (st : InvertedIndex) (ta tb : String)
    (hdf : (postings st ta).card ≤ (postings st tb).card) :
    idfValue st tb ≤ idfValue st ta := by
  unfold idfValue
  by_cases h : st.docmap.length = 0
  · simp [h]
  · simp only [h, if_false]
    rw [idf_arg_eq, idf_arg_eq]
    have hc : ((postings st ta).card : ℝ) ≤ ((postings st tb).card : ℝ) :=
      Nat.cast_le.2 hdf
    apply Real.log_le_log
    · positivity
    · apply div_le_div_of_nonneg_left
      · positivity
      · positivity
      · linarith

/-! Machinery for inverting a successful `bm25_search` run. -/

theorem except_bind_ok {ε α β : Type} (x : Except ε α) (f : α → Except ε β)
    (b : β) (h : x >>= f = .ok b) : ∃ a, x = .ok a ∧ f a = .ok b := by
  cases x with
  | ok a => exact ⟨a, rfl, h⟩
  | error e => exact absurd h (by simp [Bind.bind, Except.bind])

theorem bm25_search_eq (st : InvertedIndex) (query : String) (k1 b : ℝ)
    (limit : Int) :
    bm25_search st query k1 b limit =
      if st.tok query = [] then pure [] else
      if candidateSet st (st.tok query) = ∅ then pure [] else
        ((candidateSet st (st.tok query)).sort (fun a b => a ≤ b)).foldlM
            (scoreStep st (st.tok query) k1 b) [] >>= fun scores =>
          pure (pyTake limit (scores.mergeSort rankLE)) := rfl

theorem scoreStep_ok (st : InvertedIndex) (tokens : List String) (k1 b : ℝ)
    (acc : List (Int × ℝ)) (d : Int) (out : List (Int × ℝ))
    (h : scoreStep st tokens k1 b acc d = .ok out) :
    ∃ total, scoreSum st d tokens k1 b = .ok total ∧
      out = if 0 < total then acc ++ [(d, total)] else acc := by
  unfold scoreStep at h
  obtain ⟨total, h1, h2⟩ := except_bind_ok _ _ _ h
  refine ⟨total, h1, ?_⟩
  exact (Except.ok.inj h2).symm

theorem foldlM_scoreStep_mem (st : InvertedIndex) (tokens : List String)
    (k1 b : ℝ) (ds : List Int) (acc out : List (Int × ℝ))
    (h : ds.foldlM (scoreStep st tokens k1 b) acc = .ok out) :
    ∀ p, p ∈ out → p ∈ acc ∨
      (p.1 ∈ ds ∧ scoreSum st p.1 tokens k1 b = .ok p.2 ∧ 0 < p.2) := by
  induction ds generalizing acc with
  | nil =>
      intro p hp
      have hao : acc = out := Except.ok.inj h
      subst hao
      exact Or.inl hp
  | cons d ds ih =>
      intro p hp
      obtain ⟨acc', h1, h2⟩ := except_bind_ok _ _ _ h
      obtain ⟨total, hs, hacc'⟩ := scoreStep_ok _ _ _ _ _ _ _ h1
      rcases ih acc' h2 p hp with hpacc' | ⟨hmem, hss, hpos⟩
      · subst hacc'
        by_cases hpos : 0 < total
        · rw [if_pos hpos] at hpacc'
          rcases List.mem_append.1 hpacc' with hin | hin
          · exact Or.inl hin
          · simp only [List.mem_singleton] at hin
            subst hin
            exact Or.inr ⟨List.mem_cons_self _ _, hs, hpos⟩
        · rw [if_neg hpos] at hpacc'
          exact Or.inl hpacc'
      · exact Or.inr ⟨List.mem_cons_of_mem _ hmem, hss, hpos⟩

theorem mem_candidateSet (st : InvertedIndex) (tokens : List String)
    (x : Int) :
    x ∈ candidateSet st tokens ↔ ∃ t ∈ tokens, x ∈ postings st t := by
  suffices hgen : ∀ acc : Finset Int,
      (x ∈ tokens.foldl (fun acc t => acc ∪ postings st t) acc ↔
        x ∈ acc ∨ ∃ t ∈ tokens, x ∈ postings st t) by
    simpa [candidateSet] using hgen ∅
  intro acc
  induction tokens generalizing acc with
  | nil => simp
  | cons t ts ih =>
      rw [List.foldl_cons, ih]
      simp only [Finset.mem_union, List.mem_cons]
      constructor
      · rintro ((hx | hx) | ⟨t2, ht2, hx⟩)
        · exact Or.inl hx
        · exact Or.inr ⟨t, Or.inl rfl, hx⟩
        · exact Or.inr ⟨t2, Or.inr ht2, hx⟩
      · rintro (hx | ⟨t2, rfl | ht2, hx⟩)
        · exact Or.inl (Or.inl hx)
        · exact Or.inl (Or.inr hx)
        · exact Or.inr ⟨t2, ht2, hx⟩

theorem rank_sorted (l : List (Int × ℝ)) :
    (l.mergeSort rankLE).Pairwise (fun p q : Int × ℝ => q.2 ≤ p.2) := by
  have h : (l.mergeSort rankLE).Pairwise (fun p q => rankLE p q = true) :=
    List.sorted_mergeSort
      (fun a b c hab hbc => by
        simp only [rankLE, decide_eq_true_iff] at hab hbc ⊢
        exact le_trans hbc hab)
      (fun a b => by
        simp only [rankLE, Bool.or_eq_true, decide_eq_true_iff]
        exact le_total b.2 a.2) l
  exact h.imp (fun hpq => by
    simpa [rankLE, decide_eq_true_iff] using hpq)

theorem pyTake_sublist {α : Type} (n : Int) (l : List α) :
    (pyTake n l).Sublist l := by
  unfold pyTake
  split
  · exact List.take_sublist _ _
  · exact List.take_sublist _ _

theorem pyTake_length_le {α : Type} (n : Int) (l : List α) (hn : 0 ≤ n) :
    ((pyTake n l).length : Int) ≤ n := by
  unfold pyTake
  rw [if_pos hn]
  have h1 : (List.take n.toNat l).length ≤ n.toNat := by
    simp [List.length_take]
  calc ((List.take n.toNat l).length : Int) ≤ (n.toNat : Int) := by
        exact_mod_cast h1
    _ = n := Int.toNat_of_nonneg hn

/-! Success-case shapes of the single-token accessors. -/

theorem get_frequency_ok (st : InvertedIndex) (docId : Int) (term : String)
    (t : String) (h : st.tok term = [t]) :
    get_frequency st docId term = .ok (tfcount st docId t) := by
  unfold get_frequency
  rw [h]
  cases hc : alookup st.term_frequencies docId with
  | none => simp [tfcount, hc, cval, alookup]
  | some c =>
      by_cases he : c = []
      · subst he
        simp [tfcount, hc, cval, alookup]
      · simp [tfcount, hc, he, cval]

theorem get_bm25_idf_ok (st : InvertedIndex) (term : String) (t : String)
    (h : st.tok term = [t]) :
    get_bm25_idf st term = .ok (idfValue st t) := by
  unfold get_bm25_idf
  rw [h]

theorem get_frequency_error_iff (st : InvertedIndex) (docId : Int)
    (term : String) :
    (∃ msg, get_frequency st docId term = .error (.invalidTerm msg)) ↔
      (st.tok term).length ≠ 1 := by
  rcases htok : st.tok term with _ | ⟨t, _ | ⟨t2, rest⟩⟩
  · simp [get_frequency, htok]
  · rw [get_frequency_ok _ _ _ _ htok]
    simp
  · simp [get_frequency, htok]

theorem get_bm25_idf_error_iff (st : InvertedIndex) (term : String) :
    (∃ msg, get_bm25_idf st term = .error (.invalidTerm msg)) ↔
      (st.tok term).length ≠ 1 := by
  rcases htok : st.tok term with _ | ⟨t, _ | ⟨t2, rest⟩⟩
  · simp [get_bm25_idf, htok]
  · rw [get_bm25_idf_ok _ _ _ htok]
    simp
  · simp [get_bm25_idf, htok]

/-- C2: `get_bm25_idf` fails with an InvalidTermError unless the term
tokenizes to exactly one token; otherwise, with n the catalog size and df
the token's posting-set size (0 if absent), it returns 0.0 when n = 0 and
ln((n - df + 0.5) / (df + 0.5) + 1.0) otherwise; and on every
build-reachable index state any value it returns is non-negative. -/
theorem get_bm25_idf_spec (st : InvertedIndex) (term : String) :
    ((∃ msg, get_bm25_idf st term = .error (.invalidTerm msg)) ↔
      (st.tok term).length ≠ 1) ∧
    (∀ t, st.tok term = [t] →
      get_bm25_idf st term = .ok (
        if st.docmap.length = 0 then 0
        else Real.log (((st.docmap.length : ℝ) -
            ((postings st t).card : ℝ) + 0.5) /
          (((postings st t).card : ℝ) + 0.5) + 1))) ∧
    (Reachable st → ∀ v, get_bm25_idf st term = .ok v → 0 ≤ v) := by
  refine ⟨get_bm25_idf_error_iff st term, fun t ht => ?_, fun hr v hv => ?_⟩
  · rw [get_bm25_idf_ok _ _ _ ht]
    rfl
  · rcases htok : st.tok term with _ | ⟨t, _ | ⟨t2, rest⟩⟩
    · simp [get_bm25_idf, htok] at hv
    · rw [get_bm25_idf_ok _ _ _ htok] at hv
      rw [← Except.ok.inj hv]
      exact idfValue_nonneg st t
        (postings_card_le st t ((reachable_inv st hr).2.1 t))
    · simp [get_bm25_idf, htok] at hv

/-- C2 witness: on the concrete one-document fixture the IDF of a
single-token term is defined and non-negative. -/
theorem get_bm25_idf_spec_witness : 0 ≤ idfValue stW "a b" := by
  have hreach : Reachable stW := by
    unfold stW
    exact Reachable.step _ _ (Reachable.fresh onetok)
  exact (get_bm25_idf_spec stW "a b").2.2 hreach (idfValue stW "a b")
    (get_bm25_idf_ok stW "a b" "a b" rfl)

/-- C3: for a single-token term, `get_bm25_tf` returns 0.0 when the
document's length entry (0 if absent) is zero or the average document
length (arithmetic mean of the length table, 0 when empty) is zero, and
otherwise (tf * (k1 + 1)) / (tf + k1 * (1 - b + b * (docLen / avgLen)))
where tf is the term-frequency accessor's value. -/
theorem get_bm25_tf_spec (st : InvertedIndex) (docId : Int) (term : String)
    (k1 b : ℝ) (t : String) (h : st.tok term = [t]) :
    get_bm25_tf st docId term k1 b = .ok (
      if dlVal st docId = 0 ∨ get_avg_doc_length st = 0 then 0
      else ((tfcount st docId t : ℝ) * (k1 + 1)) /
        ((tfcount st docId t : ℝ) +
          k1 * (1 - b + b * ((dlVal st docId : ℝ) / get_avg_doc_length st)))) ∧
    get_avg_doc_length st =
      (if st.doc_lengths = [] then 0
        else ((st.doc_lengths.map Prod.snd).sum : ℝ) /
          (st.doc_lengths.length : ℝ)) := by
  constructor
  · unfold get_bm25_tf
    rw [get_frequency_ok _ _ _ _ h]
    by_cases hc : dlVal st docId = 0 ∨ get_avg_doc_length st = 0
    · simp [hc]
    · simp [hc]
  · rfl

/-- C3 witness: the TF component evaluated on the concrete fixture. -/
theorem get_bm25_tf_spec_witness :
    get_bm25_tf stW 1 "a b" BM25_K1 BM25_B = .ok (
      if dlVal stW 1 = 0 ∨ get_avg_doc_length stW = 0 then 0
      else ((tfcount stW 1 "a b" : ℝ) * (BM25_K1 + 1)) /
        ((tfcount stW 1 "a b" : ℝ) +
          BM25_K1 * (1 - BM25_B + BM25_B *
            ((dlVal stW 1 : ℝ) / get_avg_doc_length stW)))) :=
  (get_bm25_tf_spec stW 1 "a b" BM25_K1 BM25_B "a b" rfl).1

/-- C4: saving and then loading at the same location restores all four
structures to their pre-save contents (for any in-memory state the load is
applied to). -/
theorem save_load_roundtrip (st st2 : InvertedIndex) (store : Store)
    (cacheDir : String) :
    ∃ st' : InvertedIndex,
      load st2 (save st store cacheDir) cacheDir = .ok st' ∧
      st'.index = st.index ∧ st'.docmap = st.docmap ∧
      st'.term_frequencies = st.term_frequencies ∧
      st'.doc_lengths = st.doc_lengths := by
  refine ⟨{ st2 with
      index := st.index
      docmap := st.docmap
      term_frequencies := st.term_frequencies
      doc_lengths := st.doc_lengths }, ?_, rfl, rfl, rfl, rfl⟩
  unfold load save
  simp

/-- C5: when any of the four persisted components is missing at a
location (in particular a location never saved to), `load` fails with a
NotFoundError and never returns a state, so the in-memory structures are
left unchanged rather than replaced by an empty index. -/
theorem load_missing (st : InvertedIndex) (store : Store) (cacheDir : String)
    (h : (store cacheDir).index = none ∨ (store cacheDir).docmap = none ∨
      (store cacheDir).term_frequencies = none ∨
      (store cacheDir).doc_lengths = none) :
    load st store cacheDir =
      .error (.notFound "Cache not found. Run build first.") ∧
    ∀ st', load st store cacheDir ≠ .ok st' := by
  unfold load
  rcases hidx : (store cacheDir).index with _ | i <;>
    rcases hdm : (store cacheDir).docmap with _ | d <;>
      rcases htf : (store cacheDir).term_frequencies with _ | tfv <;>
        rcases hdl : (store cacheDir).doc_lengths with _ | dlv <;>
          simp_all

/-- C5 witness: loading from storage never saved to fails with
NotFoundError. -/
theorem load_missing_witness :
    load stW emptyStore "cache" =
      .error (.notFound "Cache not found. Run build first.") :=
  (load_missing stW emptyStore "cache" (Or.inl rfl)).1

/-- C6: `get_frequency` fails with an InvalidTermError exactly when the
term tokenizes to a count other than one; for a single-token term it never
fails and returns the stored occurrence count, which is 0 when the
document has no counter entry or the token is absent. -/
theorem get_frequency_spec (st : InvertedIndex) (docId : Int)
    (term : String) :
    ((∃ msg, get_frequency st docId term = .error (.invalidTerm msg)) ↔
      (st.tok term).length ≠ 1) ∧
    (∀ t, st.tok term = [t] →
      get_frequency st docId term = .ok (tfcount st docId t)) ∧
    (∀ t, st.tok term = [t] → alookup st.term_frequencies docId = none →
      get_frequency st docId term = .ok 0) := by
  refine ⟨get_frequency_error_iff st docId term,
    fun t ht => get_frequency_ok st docId term t ht, fun t ht hnone => ?_⟩
  rw [get_frequency_ok st docId term t ht]
  simp [tfcount, hnone, cval, alookup]

/-- C6 witness: reading a frequency for an unknown document id succeeds
with 0 on the concrete fixture. -/
theorem get_frequency_spec_witness :
    get_frequency stW 42 "zz" = .ok (tfcount stW 42 "zz") :=
  (get_frequency_spec stW 42 "zz").2.1 "zz" rfl

/-- C7: on every build-reachable index state, the sum of any document's
term-frequency counter values equals that document's length-table entry. -/
theorem frequency_consistency (st : InvertedIndex) (h : Reachable st)
    (d : Int) (c : List (String × Nat))
    (hc : alookup st.term_frequencies d = some c) :
    csum c = dlVal st d := by
  have h1 := (reachable_inv st h).1 d
  rw [hc] at h1
  simpa using h1

/-- C7 witness: the invariant evaluated on the concrete one-document
fixture built from a fresh index. -/
theorem frequency_consistency_witness :
    csum [("a b", 1)] = dlVal stW 1 := by
  have hreach : Reachable stW := by
    unfold stW
    exact Reachable.step _ _ (Reachable.fresh onetok)
  exact frequency_consistency stW hreach 1 [("a b", 1)] (by decide)

/-- C8: for a fixed index state and two single-token terms, if the first
term's document frequency is no larger than the second's, the first
term's BM25 IDF is at least the second's. -/
theorem idf_antitone (st : InvertedIndex) (t1 t2 ta tb : String)
    (h1 : st.tok t1 = [ta]) (h2 : st.tok t2 = [tb])
    (hdf : (postings st ta).card ≤ (postings st tb).card) :
    ∀ v1 v2, get_bm25_idf st t1 = .ok v1 → get_bm25_idf st t2 = .ok v2 →
      v2 ≤ v1 := by
  intro v1 v2 hv1 hv2
  rw [get_bm25_idf_ok _ _ _ h1] at hv1
  rw [get_bm25_idf_ok _ _ _ h2] at hv2
  rw [← Except.ok.inj hv1, ← Except.ok.inj hv2]
  exact idfValue_antitone st ta tb hdf

/-- C8 witness: on the two-document fixture, token "a" occurs in one
document and token "b" in two, and the IDF of "b" is at most that of
"a". -/
theorem idf_antitone_witness :
    idfValue stPair "b" ≤ idfValue stPair "a" :=
  idf_antitone stPair "a" "b" "a" "b" (by decide) (by decide) (by decide)
    (idfValue stPair "a") (idfValue stPair "b")
    (get_bm25_idf_ok stPair "a" "a" (by decide))
    (get_bm25_idf_ok stPair "b" "b" (by decide))

/-- C10: on every build-reachable index state, every document id in any
posting set, the term-frequency table, or the length table is a catalog
key, and every token's document frequency is at most the catalog size. -/
theorem cross_containment (st : InvertedIndex) (h : Reachable st) :
    (∀ t x, x ∈ postings st t → x ∈ st.docmap.map Prod.fst) ∧
    (∀ x, (alookup st.term_frequencies x).isSome →
      x ∈ st.docmap.map Prod.fst) ∧
    (∀ x, (alookup st.doc_lengths x).isSome →
      x ∈ st.docmap.map Prod.fst) ∧
    (∀ t, (postings st t).card ≤ st.docmap.length) := by
  obtain ⟨-, h2, h3, h4⟩ := reachable_inv st h
  exact ⟨fun t x hx => (alookup_isSome_iff_mem _ _).1 (h2 t x hx),
    fun x hx => (alookup_isSome_iff_mem _ _).1 (h3 x hx),
    fun x hx => (alookup_isSome_iff_mem _ _).1 (h4 x hx),
    fun t => postings_card_le st t (h2 t)⟩

/-- C10 witness: document frequency bounded by catalog size on the
concrete fixture. -/
theorem cross_containment_witness :
    (postings stW "a b").card ≤ stW.docmap.length := by
  have hreach : Reachable stW := by
    unfold stW
    exact Reachable.step _ _ (Reachable.fresh onetok)
  exact (cross_containment stW hreach).2.2.2 "a b"

/-- C1 counterexample: with a negative `limit` (Python slice semantics in
`ranked[:limit]`), the returned list can be longer than `limit` pairs —
already the empty result of length 0 violates "at most -1 pairs" — so the
length bound of the claim fails as universally stated. -/
theorem bm25_search_limit_counterexample :
    ¬ (∀ res : List (Int × ℝ),
        bm25_search (freshIndex onetok) "a" BM25_K1 BM25_B (-1) = .ok res →
        (res.length : Int) ≤ -1) := by
  intro hcl
  have hok : bm25_search (freshIndex onetok) "a" BM25_K1 BM25_B (-1) =
      .ok [] := by
    rw [bm25_search_eq]
    have h1 : (freshIndex onetok).tok "a" = ["a"] := rfl
    rw [h1]
    simp [candidateSet, postings, freshIndex, onetok, alookup]
    rfl
  have hlen := hcl [] hok
  norm_num at hlen

/-- C1 (amended): for every successful `bm25_search` run, an empty token
list yields the empty result; the candidate set is the union of the
posting sets of the query tokens; every returned pair carries a candidate
document whose aggregate score (the sum of its per-token BM25 scores) is
its score entry and is strictly positive; results are sorted by score
descending; and when `limit` is non-negative at most `limit` pairs are
returned (for negative `limit` Python slice semantics apply instead). -/
theorem bm25_search_spec (st : InvertedIndex) (query : String) (k1 b : ℝ)
    (limit : Int) (res : List (Int × ℝ))
    (h : bm25_search st query k1 b limit = .ok res) :
    (st.tok query = [] → res = []) ∧
    (∀ x, x ∈ candidateSet st (st.tok query) ↔
      ∃ t ∈ st.tok query, x ∈ postings st t) ∧
    (∀ p, p ∈ res → p.1 ∈ candidateSet st (st.tok query) ∧
      scoreSum st p.1 (st.tok query) k1 b = .ok p.2 ∧ 0 < p.2) ∧
    res.Pairwise (fun p q : Int × ℝ => q.2 ≤ p.2) ∧
    (0 ≤ limit → (res.length : Int) ≤ limit) := by
  rw [bm25_search_eq] at h
  by_cases h1 : st.tok query = []
  · rw [if_pos h1] at h
    have hres : res = [] := (Except.ok.inj h).symm
    subst hres
    refine ⟨fun _ => rfl, fun x => mem_candidateSet st _ x, ?_,
      List.Pairwise.nil, ?_⟩
    · intro p hp
      cases hp
    · intro hl
      simpa using hl
  · rw [if_neg h1] at h
    by_cases h2 : candidateSet st (st.tok query) = ∅
    · rw [if_pos h2] at h
      have hres : res = [] := (Except.ok.inj h).symm
      subst hres
      refine ⟨fun hq => absurd hq h1, fun x => mem_candidateSet st _ x, ?_,
        List.Pairwise.nil, ?_⟩
      · intro p hp
        cases hp
      · intro hl
        simpa using hl
    · rw [if_neg h2] at h
      obtain ⟨scores, hsc, hres⟩ := except_bind_ok _ _ _ h
      have hres' : res = pyTake limit (scores.mergeSort rankLE) :=
        (Except.ok.inj hres).symm
      subst hres'
      refine ⟨fun hq => absurd hq h1, fun x => mem_candidateSet st _ x, ?_,
        ?_, ?_⟩
      · intro p hp
        have hp1 : p ∈ scores.mergeSort rankLE :=
          List.Sublist.mem hp (pyTake_sublist _ _)
        have hp2 : p ∈ scores :=
          (List.mergeSort_perm scores rankLE).mem_iff.1 hp1
        rcases foldlM_scoreStep_mem _ _ _ _ _ _ _ hsc p hp2 with
          hnil | ⟨hmem, hss, hpos⟩
        · cases hnil
        · exact ⟨(Finset.mem_sort _).1 hmem, hss, hpos⟩
      · exact List.Pairwise.sublist (pyTake_sublist _ _) (rank_sorted scores)
      · exact fun hl => pyTake_length_le _ _ hl

/-- C1 witness: a concrete successful run through the amended theorem. -/
theorem bm25_search_spec_witness :
    (([] : List (Int × ℝ)).length : Int) ≤ 5 := by
  have hok : bm25_search (freshIndex onetok) "a" BM25_K1 BM25_B 5 =
      .ok [] := by
    rw [bm25_search_eq]
    have h1 : (freshIndex onetok).tok "a" = ["a"] := rfl
    rw [h1]
    simp [candidateSet, postings, freshIndex, onetok, alookup]
    rfl
  exact (bm25_search_spec _ _ _ _ _ _ hok).2.2.2.2 (by norm_num)

/-- C9 counterexample: building the same one-movie input twice doubles the
document's length-table entry, so the structures for a document occurring
in the input are not "fully replaced by values derived from the new input
alone" — the prior state leaks in. -/
theorem build_replaces_counterexample :
    ¬ (∀ (st : InvertedIndex) (ms : List Movie) (x : Int),
        x ∈ ms.map Movie.id →
        dlVal (build st ms) x = dlVal (build (freshIndex st.tok) ms) x) := by
  intro hcl
  have h := hcl (build (freshIndex onetok) [mW]) [mW] 1 (by decide)
  exact absurd h (by decide)

/-- C9 (amended): `build` is frame-preserving for documents not occurring
in the input (their catalog entries, term-frequency entries, length
entries, and posting-set memberships are unchanged), and additive for
documents that do occur: the catalog entry becomes the input's last record
for that id, while length entries, term-frequency counts, and posting-set
memberships accumulate the new input's contributions onto the prior state
instead of replacing it. -/
theorem build_additive_frame (st : InvertedIndex) (ms : List Movie) :
    (∀ x, x ∉ ms.map Movie.id →
      alookup (build st ms).docmap x = alookup st.docmap x ∧
      alookup (build st ms).term_frequencies x =
        alookup st.term_frequencies x ∧
      alookup (build st ms).doc_lengths x = alookup st.doc_lengths x ∧
      (∀ t, x ∈ postings (build st ms) t ↔ x ∈ postings st t)) ∧
    (∀ x, x ∈ ms.map Movie.id →
      alookup (build st ms).docmap x = lastRecord ms x ∧
      dlVal (build st ms) x = dlVal st x + contribLen st.tok ms x ∧
      (∀ t, tfcount (build st ms) x t =
        tfcount st x t + contribCnt st.tok ms x t) ∧
      (∀ t, x ∈ postings (build st ms) t ↔
        x ∈ postings st t ∨
          ∃ m, m ∈ ms ∧ m.id = x ∧ t ∈ st.tok (docText m))) := by
  constructor
  · intro x hx
    have hlr : lastRecord ms x = none := by
      cases hlr : lastRecord ms x with
      | none => rfl
      | some r =>
          exact absurd ((lastRecord_isSome ms x).1 (by simp [hlr])) hx
    refine ⟨?_, build_tf_ne st ms x hx, build_dl_ne st ms x hx, fun t => ?_⟩
    · rw [build_docmap_lookup, hlr]
      simp
    · rw [build_postings]
      constructor
      · rintro (hin | ⟨m, hm, rfl, -⟩)
        · exact hin
        · exact absurd (List.mem_map.2 ⟨m, hm, rfl⟩) hx
      · exact Or.inl
  · intro x hx
    refine ⟨?_, build_dl_val st ms x, fun t => build_tf_cval st ms x t,
      fun t => build_postings st ms t x⟩
    rw [build_docmap_lookup]
    cases hlr : lastRecord ms x with
    | some r => rfl
    | none =>
        exact absurd hx (by rw [← lastRecord_isSome, hlr]; simp)

/-- C9 witness: the additivity equation for the length table evaluated on
the concrete fixture. -/
theorem build_additive_frame_witness :
    dlVal (build stW [mW]) 1 = dlVal stW 1 + contribLen stW.tok [mW] 1 :=
  ((build_additive_frame stW [mW]).2 1 (by decide)).2.1

end RagIndex
